import Mathlib

/-!
# Verification model of the quiz application

A shallow embedding of the browser quiz application: the LLM-response
extraction and validation pipeline (`QuizGenerator.tsx`), the voice
conversation steps, and the quiz-taking state machine (`QuizTaking.tsx`).
JS strings are modelled as `List Char`, JS numbers as `Int`/`Nat`
(with an exact model of IEEE double rounding where the score
percentage needs it), and component state as explicit structures with a
step function over user/timer events.
-/

namespace Quiz

/-! ### Text primitives (JS strings as lists of characters) -/

/-- JS `String.prototype.trim`: drop whitespace from both ends. -/
def jsTrim (s : List Char) : List Char :=
  ((s.dropWhile Char.isWhitespace).reverse.dropWhile Char.isWhitespace).reverse

/-- ASCII lower-casing of a character, as `String.prototype.toLowerCase`
acts on the ASCII range (the only range the keyword tests exercise). -/
def charToLower (c : Char) : Char :=
  if 'A' ≤ c ∧ c ≤ 'Z' then Char.ofNat (c.toNat + 32) else c

/-- JS `String.prototype.toLowerCase` on the ASCII range. -/
def toLowerStr (s : List Char) : List Char := s.map charToLower

/-- Does `s` start with `pat`? (helper for substring containment). -/
def startsWithChars : List Char → List Char → Bool
  | _, [] => true
  | [], _ :: _ => false
  | c :: cs, d :: ds => c == d && startsWithChars cs ds

/-- JS `String.prototype.includes`: `pat` occurs contiguously in `s`. -/
def containsSub : List Char → List Char → Bool
  | [], pat => pat.isEmpty
  | c :: cs, pat => startsWithChars (c :: cs) pat || containsSub cs pat

/-- First match of the regex `/\d+/`: the first maximal digit run, if any
(used on the voice "questions" step to read the question count). -/
def firstNumberMatch : List Char → Option (List Char)
  | [] => none
  | c :: cs =>
      if c.isDigit then some (c :: cs.takeWhile Char.isDigit)
      else firstNumberMatch cs

/-! ### The JSON-array extraction regex `/\[[\s\S]*\]/`

`generateQuiz` and `generateVoiceQuizFrom` both run
`generatedText.match(/\[[\s\S]*\]/)` on the LLM response text.  The
regex is leftmost-greedy: it starts at the first `'['` that has some
`']'` after it and extends to the **last** `']'` of the text. -/

/-- Split `s` just after its last `']'`: returns `(a, b)` with
`s = a ++ b`, `a` ending in `']'` and `b` containing no `']'`;
`none` when `s` contains no `']'`.  This is the greedy step of
`[\s\S]*` followed by `]`. -/
def cutAtLastClose : List Char → Option (List Char × List Char)
  | [] => none
  | c :: cs =>
      match cutAtLastClose cs with
      | some (a, b) => some (c :: a, b)
      | none => if c == ']' then some ([c], cs) else none

/-- The JS regex match `text.match(/\[[\s\S]*\]/)`: try each start
position left to right; at a `'['`, greedily consume up to the last
`']'` of the remaining text. -/
def regexArrayMatch : List Char → Option (List Char)
  | [] => none
  | c :: cs =>
      if c == '[' then
        match cutAtLastClose cs with
        | some (a, _) => some (c :: a)
        | none => regexArrayMatch cs
      else regexArrayMatch cs

/-- Modelled from the spec: scan after an opening `'['` with a bracket
depth counter, returning the accumulated characters once the depth
returns to zero — the body of "the first top-level bracketed array". -/
def scanArray : List Char → Nat → List Char → Option (List Char)
  | [], _, _ => none
  | c :: cs, depth, acc =>
      if c == ']' then
        if depth == 1 then some ((c :: acc).reverse)
        else scanArray cs (depth - 1) (c :: acc)
      else if c == '[' then scanArray cs (depth + 1) (c :: acc)
      else scanArray cs depth (c :: acc)

/-- Modelled from the spec: "the first top-level bracketed array in the
response text" — the bracket-balanced span opened by the first `'['`. -/
def firstTopLevelArray : List Char → Option (List Char)
  | [] => none
  | c :: cs => if c == '[' then scanArray cs 1 [c] else firstTopLevelArray cs

/-! ### JSON values and the parsed question objects

`JSON.parse(jsonMatch[0])` yields arbitrary JSON; the validator then
inspects the fields of each element.  We model a JSON value and a parsed
question object whose four fields each hold a JSON value (a missing
field behaves as `null`, which is falsy, exactly as `undefined` is). -/

inductive Json where
  | null : Json
  | bool (b : Bool) : Json
  | num (n : Int) : Json
  | str (s : List Char) : Json
  | arr (elems : List Json) : Json

/-- JS truthiness of a value: `null`/`false`/`0`/`""` are falsy,
every array is truthy. -/
def truthy : Json → Bool
  | .null => false
  | .bool b => b
  | .num n => n != 0
  | .str s => !s.isEmpty
  | .arr _ => true

/-- JS `Array.isArray`. -/
def isArrayVal : Json → Bool
  | .arr _ => true
  | _ => false

/-- JS `typeof v === 'number'`. -/
def isNumberVal : Json → Bool
  | .num _ => true
  | _ => false

/-- `.length` of an array value (only ever read after `Array.isArray`). -/
def arrayLength : Json → Nat
  | .arr xs => xs.length
  | _ => 0

/-- One parsed element of the LLM's question array, fields as JSON
values as `JSON.parse` delivers them. -/
structure RawQuestion where
  question : Json
  options : Json
  correctAnswerIndex : Json
  hint : Json

/-- The per-element check of the validator in `generateQuiz` /
`generateVoiceQuizFrom`:
`q.question && Array.isArray(q.options) && q.options.length === 4 &&
typeof q.correctAnswerIndex === 'number' && q.hint`. -/
def isValidQuestion (q : RawQuestion) : Bool :=
  truthy q.question && isArrayVal q.options && arrayLength q.options == 4 &&
    isNumberVal q.correctAnswerIndex && truthy q.hint

/-- The validator `questions.every(q => ...)` of the generation code. -/
def isValidFormat (qs : List RawQuestion) : Bool :=
  qs.all isValidQuestion

/-- Modelled from the spec: the claimed per-element invariant — a
non-empty question string, an options array of length exactly 4, a
`correctAnswerIndex` that is a number in the range 0..3, and a
non-empty hint string. -/
def specValidQuestion (q : RawQuestion) : Bool :=
  (match q.question with | .str s => !s.isEmpty | _ => false) &&
  isArrayVal q.options && arrayLength q.options == 4 &&
  (match q.correctAnswerIndex with | .num n => 0 ≤ n && n ≤ 3 | _ => false) &&
  (match q.hint with | .str s => !s.isEmpty | _ => false)

/-! ### The voice conversation (`processVoiceResponse`)

Three steps: topic → questions → difficulty.  Processing a final
transcript mutates the conversation state as the `switch` in
`processVoiceResponse` does. -/

inductive ConvStep where
  | topic : ConvStep
  | questions : ConvStep
  | difficulty : ConvStep
deriving DecidableEq

/-- Position of a step in the dialogue order. -/
def ConvStep.idx : ConvStep → Nat
  | .topic => 0
  | .questions => 1
  | .difficulty => 2

/-- The component state touched by the voice conversation. -/
structure VoiceState where
  conversationStep : ConvStep
  topicResp : List Char
  questionCountResp : List Char
  difficultyResp : List Char
  showVoiceModal : Bool
  isVoiceInputComplete : Bool
deriving DecidableEq

/-- The difficulty mapping of the `'difficulty'` case: `'easy'` when the
lowered transcript contains "easy" or "simple", else `'hard'` when it
contains "hard", "difficult" or "advanced", else `'medium'`. -/
def mapDifficulty (lower : List Char) : List Char :=
  if containsSub lower ("easy".toList) || containsSub lower ("simple".toList) then
    "easy".toList
  else if containsSub lower ("hard".toList) || containsSub lower ("difficult".toList)
      || containsSub lower ("advanced".toList) then
    "hard".toList
  else
    "medium".toList

/-- The state transition of `processVoiceResponse` on a transcript:
the `switch (step)` over the current conversation step (the speech /
recognition plumbing around it has no effect on this state). -/
def processVoiceResponse (s : VoiceState) (transcript : List Char) : VoiceState :=
  let lowerTranscript := jsTrim (toLowerStr transcript)
  match s.conversationStep with
  | .topic =>
      if (jsTrim transcript).length < 3 then s
      else { s with topicResp := jsTrim transcript, conversationStep := .questions }
  | .questions =>
      let questionCount := (firstNumberMatch lowerTranscript).getD ("10".toList)
      { s with questionCountResp := questionCount, conversationStep := .difficulty }
  | .difficulty =>
      { s with difficultyResp := mapDifficulty lowerTranscript,
               showVoiceModal := false, isVoiceInputComplete := true }

/-! ### The quiz-taking state machine (`QuizTaking.tsx`)

Component state plus the list of auto-advance timers scheduled by
`setTimeout(..., 2000)` in `handleNextQuestion` (the component never
clears them, so several may be pending; each captured the value of
`isLastQuestion` at scheduling time).  Events are the user actions and
the firing of the oldest pending timer. -/

/-- A question as consumed by `QuizTaking` (`correctAnswerIndex` is a
raw JS number: the validator never range-checks it). -/
structure Question where
  question : List Char
  options : List (List Char)
  correctAnswerIndex : Int
  hint : List Char
deriving DecidableEq, Inhabited

/-- `UserAnswer` record of `QuizTaking.tsx`. -/
structure UserAnswer where
  questionIndex : Nat
  selectedAnswer : Nat
  isCorrect : Bool
  usedHint : Bool
deriving DecidableEq

/-- The `QuizTaking` component state (the `questions` prop included). -/
structure QuizState where
  questions : List Question
  currentQuestionIndex : Nat
  userAnswers : List UserAnswer
  selectedOption : Option Nat
  showAnswer : Bool
  credits : Nat
  isQuizComplete : Bool
  usedHints : List Nat
  pendingAdvance : List Bool
deriving DecidableEq

/-- Initial state for a given question list. -/
def initQuiz (qs : List Question) : QuizState :=
  { questions := qs, currentQuestionIndex := 0, userAnswers := [],
    selectedOption := none, showAnswer := false, credits := 10,
    isQuizComplete := false, usedHints := [], pendingAdvance := [] }

/-- `questions[currentQuestionIndex]` (total, with a default element —
the JS code reads `undefined` fields past the end). -/
def currentQuestion (s : QuizState) : Question :=
  s.questions.getD s.currentQuestionIndex default

/-- `hasAnswered`: `userAnswers.find(a => a.questionIndex === currentQuestionIndex)`. -/
def hasAnswered (s : QuizState) : Bool :=
  s.userAnswers.any (fun a => a.questionIndex == s.currentQuestionIndex)

/-- `isLastQuestion`: `currentQuestionIndex === questions.length - 1`. -/
def isLastQuestion (s : QuizState) : Bool :=
  s.currentQuestionIndex == s.questions.length - 1

/-- `canUseHint`: `credits >= 2 && !usedHints.has(currentQuestionIndex)`. -/
def canUseHint (s : QuizState) : Bool :=
  2 ≤ s.credits && !(s.usedHints.contains s.currentQuestionIndex)

/-- The navigation branch shared by `handleNextQuestion`'s timeout and
its already-answered path: finish on the last question, otherwise move
one question forward and clear selection and answer display. -/
def advance (s : QuizState) : QuizState :=
  if isLastQuestion s then { s with isQuizComplete := true }
  else { s with currentQuestionIndex := s.currentQuestionIndex + 1,
                selectedOption := none, showAnswer := false }

/-- Recording branch of `handleNextQuestion`: build the `UserAnswer`,
append it, show the answer, and schedule the 2-second auto-advance
(which captured the current `isLastQuestion`). -/
def recordAnswer (s : QuizState) (k : Nat) : QuizState :=
  let q := currentQuestion s
  let isCorrect : Bool := (k : Int) == q.correctAnswerIndex
  let newAnswer : UserAnswer :=
    { questionIndex := s.currentQuestionIndex, selectedAnswer := k,
      isCorrect := isCorrect, usedHint := s.usedHints.contains s.currentQuestionIndex }
  { s with userAnswers := s.userAnswers ++ [newAnswer], showAnswer := true,
           pendingAdvance := s.pendingAdvance ++ [isLastQuestion s] }

/-- A concrete well-formed question, used in closed instances. -/
def sampleQuestion : Question :=
  { question := "Sample?".toList,
    options := ["a".toList, "b".toList, "c".toList, "d".toList],
    correctAnswerIndex := 0, hint := "hint".toList }

/-- Events of the quiz-taking flow: the four user handlers plus the
firing of the oldest pending auto-advance timer. -/
inductive QuizEvent where
  | selectOption (i : Nat) : QuizEvent
  | nextQuestion : QuizEvent
  | prevQuestion : QuizEvent
  | useHint : QuizEvent
  | timerFire : QuizEvent
deriving DecidableEq

/-- One step of the quiz-taking state machine, handler for handler from
`QuizTaking.tsx`. -/
def quizStep (s : QuizState) : QuizEvent → QuizState
  | .selectOption i =>
      -- handleOptionSelect
      if s.showAnswer then s else { s with selectedOption := some i }
  | .nextQuestion =>
      -- handleNextQuestion
      match s.selectedOption with
      | none => if hasAnswered s then advance s else s
      | some k => if hasAnswered s then advance s else recordAnswer s k
  | .prevQuestion =>
      -- handlePreviousQuestion
      if 0 < s.currentQuestionIndex then
        { s with currentQuestionIndex := s.currentQuestionIndex - 1,
                 selectedOption := none, showAnswer := false }
      else s
  | .useHint =>
      -- handleUseHint
      if canUseHint s then
        { s with credits := s.credits - 2,
                 usedHints := s.usedHints ++ [s.currentQuestionIndex] }
      else s
  | .timerFire =>
      -- the setTimeout callback of handleNextQuestion, oldest first
      match s.pendingAdvance with
      | [] => s
      | wasLast :: rest =>
          if wasLast then
            { s with pendingAdvance := rest, isQuizComplete := true }
          else
            { s with pendingAdvance := rest,
                     currentQuestionIndex := s.currentQuestionIndex + 1,
                     selectedOption := none, showAnswer := false }

/-- Run a sequence of events from the initial state. -/
def runQuiz (qs : List Question) (evs : List QuizEvent) : QuizState :=
  evs.foldl quizStep (initQuiz qs)

/-- `calculateScore`'s correct-answer count:
`userAnswers.filter(a => a.isCorrect).length`. -/
def countCorrect (userAnswers : List UserAnswer) : Nat :=
  (userAnswers.filter (fun a => a.isCorrect)).length

/-! ### Exact model of the percentage computation

`calculateScore` computes `Math.round((correctAnswers / totalQuestions)
* 100)` in IEEE-754 double precision.  Doubles in the range reached
here are exactly the numbers `m * 2^(e-52)` with `2^52 ≤ m < 2^53`
(plus zero), and each JS arithmetic operation rounds its exact rational
result to the nearest such number, ties to even mantissa.  We model the
two roundings (the division and the multiplication by 100) exactly in
integer arithmetic; `Math.round` then takes the closest integer, ties
toward +∞, on the exact value of the resulting double. -/

/-- `⌊log2 n⌋` for `n ≥ 1`, by fuelled halving (`fuel = n` always
suffices since the recursion depth is `⌊log2 n⌋`). -/
def log2Fuel : Nat → Nat → Nat
  | 0, _ => 0
  | fuel + 1, n => if n ≤ 1 then 0 else 1 + log2Fuel fuel (n / 2)

/-- `⌊log2 n⌋` for `n ≥ 1`. -/
def natLog2 (n : Nat) : Nat := log2Fuel n n

/-- Round `p / q` (`q > 0`) to the nearest integer, ties to even. -/
def rne (p q : Nat) : Nat :=
  let n := p / q
  let r := p % q
  if q < 2 * r then n + 1
  else if 2 * r < q then n
  else if n % 2 == 0 then n else n + 1

/-- A nonnegative double: value `m * 2^(e-52)` with `2^52 ≤ m ≤ 2^53`
when nonzero, and `m = 0` for zero. -/
structure FloatRep where
  m : Nat
  e : Int
deriving DecidableEq

/-- The double produced by the JS division `N / M` of two (exactly
representable) naturals: the correctly rounded quotient. -/
def fldivNat (n mdiv : Nat) : FloatRep :=
  if n == 0 || mdiv == 0 then ⟨0, 0⟩
  else
    let p := natLog2 n
    let q := natLog2 mdiv
    let e0 : Int := (p : Int) - (q : Int)
    -- is 2^e0 ≤ n / mdiv ?
    let le : Bool :=
      if 0 ≤ e0 then decide (mdiv * 2 ^ e0.toNat ≤ n)
      else decide (mdiv ≤ n * 2 ^ (-e0).toNat)
    let e1 : Int := if le then e0 else e0 - 1
    let shift : Int := 52 - e1
    let m1 :=
      if 0 ≤ shift then rne (n * 2 ^ shift.toNat) mdiv
      else rne n (mdiv * 2 ^ (-shift).toNat)
    ⟨m1, e1⟩

/-- The double produced by the JS multiplication `x * 100`: the
correctly rounded product. -/
def flMul100 (x : FloatRep) : FloatRep :=
  if x.m == 0 then ⟨0, 0⟩
  else
    let t := x.m * 100
    let lg := natLog2 t
    let m2 := if 52 ≤ lg then rne t (2 ^ (lg - 52)) else t * 2 ^ (52 - lg)
    ⟨m2, x.e + (lg : Int) - 52⟩

/-- `Math.round` on a nonnegative double: closest integer to the exact
value `m * 2^(e-52)`, ties toward +∞. -/
def jsRoundFloat (x : FloatRep) : Nat :=
  if x.m == 0 then 0
  else
    let k : Int := 52 - x.e
    if k ≤ 0 then x.m * 2 ^ (-k).toNat
    else (2 * x.m + 2 ^ k.toNat) / 2 ^ (k.toNat + 1)

/-- `Math.round((correct / total) * 100)` exactly as JS computes it. -/
def jsPercent (correct total : Nat) : Nat :=
  jsRoundFloat (flMul100 (fldivNat correct total))

/-- `calculateScore` of `QuizTaking.tsx`:
`(correctAnswers, totalQuestions, percentage)`. -/
def calculateScore (questions : List Question) (userAnswers : List UserAnswer) :
    Nat × Nat × Nat :=
  (countCorrect userAnswers, questions.length,
    jsPercent (countCorrect userAnswers) questions.length)

/-- Rounding `100 * c / t` half-up in exact rational arithmetic,
as an integer formula (`t > 0`). -/
def specPercent (c t : Nat) : Nat := (200 * c + t) / (2 * t)

/-! ### The generation pipeline (`generateQuiz`)

The call makes one request and walks a fixed sequence of checks; any
failure throws, the `catch` turns the message into a destructive toast,
and the `finally` resets `isGenerating`.  The environment below fixes
the behaviour of the external world for one run: the file-text
extraction, the fetch, and `JSON.parse`. -/

inductive InputKind where
  | file : InputKind
  | web : InputKind
  | voice : InputKind
deriving DecidableEq

/-- Result of `JSON.parse(jsonMatch[0])` for this run: it threw, it
returned a non-array, or it returned an array of question objects. -/
inductive ParseResult where
  | err : ParseResult
  | nonArray : ParseResult
  | array (qs : List RawQuestion) : ParseResult

/-- External-world behaviour of one `generateQuiz` run. -/
structure GenEnv where
  inputKind : InputKind
  /-- `extractTextFromFile` result; `none` models its rejection. -/
  extraction : Option (List Char)
  /-- the `fetch` promise rejected (network failure). -/
  fetchFails : Bool
  /-- `response.ok` -/
  respOk : Bool
  /-- `response.status` -/
  respStatus : Nat
  /-- `response.statusText` -/
  respStatusText : List Char
  /-- `data.candidates?.[0]?.content?.parts?.[0]?.text` -/
  generatedText : Option (List Char)
  /-- what `JSON.parse` does on the matched substring. -/
  parsed : ParseResult

/-- Error message `extractTextFromFile` rethrows on any internal
failure (including unsupported file types). -/
def msgExtractFailed : List Char :=
  "Failed to extract text from file. Please check the file format and try again.".toList

def msgNoTextExtracted : List Char :=
  "No text could be extracted from the file".toList

/-- Message of the platform `TypeError` a failed `fetch` rejects with. -/
def msgNetworkError : List Char := "Failed to fetch".toList

def apiErrorMsg (status : Nat) (statusText : List Char) : List Char :=
  "API Error: ".toList ++ (Nat.repr status).toList ++ [' '] ++ statusText

def msgNoResponse : List Char := "No response from AI".toList

def msgInvalidResponseFormat : List Char := "Invalid response format from AI".toList

/-- Message of the platform `SyntaxError` thrown by `JSON.parse`. -/
def msgJsonSyntaxError : List Char := "Unexpected token in JSON".toList

def msgNoValidQuestions : List Char := "No valid questions generated".toList

def msgInvalidQuestionFormat : List Char := "Generated questions have invalid format".toList

/-- Content preparation of `generateQuiz` (only the file branch can
fail: a rejected extraction, or extracted text that trims to empty). -/
def contentStage (env : GenEnv) : Except (List Char) Unit :=
  match env.inputKind with
  | .file =>
      match env.extraction with
      | none => .error msgExtractFailed
      | some t => if (jsTrim t).isEmpty then .error msgNoTextExtracted else .ok ()
  | .web => .ok ()
  | .voice => .ok ()

/-- The request/response part of `generateQuiz`, in source order:
fetch, `response.ok` check, generated-text presence, regex match,
`JSON.parse`, array/emptiness check, format validation. -/
def fetchStage (env : GenEnv) : Except (List Char) (List RawQuestion) :=
  if env.fetchFails then .error msgNetworkError
  else if !env.respOk then
    .error (apiErrorMsg env.respStatus env.respStatusText)
  else
    match env.generatedText with
    | none => .error msgNoResponse
    | some generated =>
      match regexArrayMatch generated with
      | none => .error msgInvalidResponseFormat
      | some _ =>
        match env.parsed with
        | .err => .error msgJsonSyntaxError
        | .nonArray => .error msgNoValidQuestions
        | .array qs =>
          if qs.isEmpty then .error msgNoValidQuestions
          else if !isValidFormat qs then .error msgInvalidQuestionFormat
          else .ok qs

/-- The `try` block of `generateQuiz`: content preparation, then the
single fetch — together with the number of `fetch` calls performed. -/
def runGen (env : GenEnv) : Except (List Char) (List RawQuestion) × Nat :=
  match contentStage env with
  | .error msg => (.error msg, 0)
  | .ok _ => (fetchStage env, 1)

/-- Observable outcome of one `generateQuiz` call. -/
structure GenOutcome where
  /-- the destructive "Generation failed" toast, with its description. -/
  errorToast : Option (List Char)
  /-- the argument `onQuizGenerated` was invoked with, if it was. -/
  quizGenerated : Option (List RawQuestion)
  /-- `isGenerating` after the `finally`. -/
  isGenerating : Bool
  /-- how many times `fetch` was called. -/
  fetchCalls : Nat

/-- `generateQuiz`: run the `try` block, `catch` surfacing the error
message as a toast, `finally` resetting `isGenerating`. -/
def generateQuiz (env : GenEnv) : GenOutcome :=
  match runGen env with
  | (.ok qs, n) =>
      { errorToast := none, quizGenerated := some qs,
        isGenerating := false, fetchCalls := n }
  | (.error msg, n) =>
      { errorToast := some msg, quizGenerated := none,
        isGenerating := false, fetchCalls := n }

/-- A parsed question whose `correctAnswerIndex` is the number 7 —
well-typed but out of the range 0..3. -/
def outOfRangeQuestion : RawQuestion :=
  { question := .str ("Sample?".toList),
    options := .arr [.str ("a".toList), .str ("b".toList), .str ("c".toList), .str ("d".toList)],
    correctAnswerIndex := .num 7,
    hint := .str ("hint".toList) }

/-- A parsed question satisfying all claimed invariants. -/
def wellFormedQuestion : RawQuestion :=
  { question := .str ("Sample?".toList),
    options := .arr [.str ("a".toList), .str ("b".toList), .str ("c".toList), .str ("d".toList)],
    correctAnswerIndex := .num 2,
    hint := .str ("hint".toList) }

/-- 23 correct out of 40: `(23/40)*100` is the double
`57.49999999999999`, which `Math.round` takes to 57. -/
def fortyAnswers : List UserAnswer :=
  (List.replicate 23 ⟨0, 0, true, false⟩) ++ (List.replicate 17 ⟨1, 1, false, false⟩)

/-- Well-formed interleavings of the quiz-taking events: each press of
Next is immediately followed by the firing of any auto-advance timer it
scheduled (the user waits out the two-second delay), and timers never
fire elsewhere. -/
inductive WFTrace : List QuizEvent → Prop
  | nil : WFTrace []
  | sel (i : Nat) {evs : List QuizEvent} : WFTrace evs →
      WFTrace (QuizEvent.selectOption i :: evs)
  | prv {evs : List QuizEvent} : WFTrace evs → WFTrace (QuizEvent.prevQuestion :: evs)
  | hnt {evs : List QuizEvent} : WFTrace evs → WFTrace (QuizEvent.useHint :: evs)
  | nxt {evs : List QuizEvent} : WFTrace evs →
      WFTrace (QuizEvent.nextQuestion :: QuizEvent.timerFire :: evs)

/-- The index/timer invariant of well-formed runs: the current index is
in bounds and no auto-advance is pending. -/
def QuizInv (s : QuizState) : Prop :=
  s.currentQuestionIndex < s.questions.length ∧ s.pendingAdvance = []

/-! ## Theorems -/

/-! ### C1: the extraction regex is greedy, not first-top-level -/

lemma cutAtLastClose_none_spec : ∀ (s : List Char), cutAtLastClose s = none → ']' ∉ s := by
  intro s
  induction s with
  | nil => intro _ h; simp at h
  | cons c cs ih =>
    intro h
    simp only [cutAtLastClose] at h
    cases hc : cutAtLastClose cs with
    | some ab => rw [hc] at h; simp at h
    | none =>
      rw [hc] at h
      by_cases hcq : c = ']'
      · simp [hcq] at h
      · simp only [List.mem_cons, not_or]
        exact ⟨fun hh => hcq hh.symm, ih hc⟩

lemma cutAtLastClose_some_spec : ∀ (s a b : List Char), cutAtLastClose s = some (a, b) →
    (∃ a₀, a = a₀ ++ [']']) ∧ s = a ++ b ∧ ']' ∉ b := by
  intro s
  induction s with
  | nil => intro a b h; simp [cutAtLastClose] at h
  | cons c cs ih =>
    intro a b h
    simp only [cutAtLastClose] at h
    cases hc : cutAtLastClose cs with
    | some ab =>
      obtain ⟨a', b'⟩ := ab
      rw [hc] at h
      simp only [Option.some.injEq, Prod.mk.injEq] at h
      obtain ⟨h1, h2⟩ := h
      subst h1
      subst h2
      obtain ⟨⟨a₀, ha₀⟩, hcs, hb⟩ := ih a' b' hc
      subst ha₀
      exact ⟨⟨c :: a₀, rfl⟩, by simp [hcs], hb⟩
    | none =>
      rw [hc] at h
      by_cases hcq : c = ']'
      · simp only [hcq, beq_self_eq_true, if_true, Option.some.injEq, Prod.mk.injEq] at h
        obtain ⟨h1, h2⟩ := h
        subst h1
        subst h2
        exact ⟨⟨[], by simp [hcq]⟩, by simp [hcq], cutAtLastClose_none_spec cs hc⟩
      · simp [hcq] at h

/-- **C1** (amended).  The substring `generateQuiz` and
`generateVoiceQuizFrom` extract for JSON parsing with
`/\[[\s\S]*\]/` is the leftmost-greedy match: it starts at the first
`'['` of the text (no `'['` occurs before it) and extends to the last
`']'` of the text (no `']'` occurs after it) — so it can be longer than
the first top-level bracketed array. -/
theorem c1_regex_match_greedy (s m : List Char) (h : regexArrayMatch s = some m) :
    ∃ pre post m₀, s = pre ++ m ++ post ∧ '[' ∉ pre ∧ ']' ∉ post ∧
      m = '[' :: (m₀ ++ [']']) := by
  induction s with
  | nil => simp [regexArrayMatch] at h
  | cons c cs ih =>
    simp only [regexArrayMatch] at h
    by_cases hc : c = '['
    · rw [if_pos (by simp [hc])] at h
      cases hcut : cutAtLastClose cs with
      | some ab =>
        obtain ⟨a, b⟩ := ab
        rw [hcut] at h
        simp only [Option.some.injEq] at h
        subst h
        obtain ⟨⟨a₀, ha₀⟩, hcs, hb⟩ := cutAtLastClose_some_spec cs _ _ hcut
        subst ha₀
        refine ⟨[], b, a₀, by simp [hcs], by simp, hb, by rw [hc]⟩
      | none =>
        rw [hcut] at h
        obtain ⟨pre, post, m₀, hs, _, _, hm⟩ := ih h
        exfalso
        apply cutAtLastClose_none_spec cs hcut
        rw [hs, hm]
        simp
    · rw [if_neg (by simp [hc])] at h
      obtain ⟨pre, post, m₀, hs, hpre, hpost, hm⟩ := ih h
      refine ⟨c :: pre, post, m₀, by simp [hs], ?_, hpost, hm⟩
      simp only [List.mem_cons, not_or]
      exact ⟨fun hh => hc hh.symm, hpre⟩

/-- **C1** witness: a concrete text where the match exists. -/
theorem c1_regex_match_greedy_witness :
    ∃ pre post m₀, "x[1]y".toList = pre ++ "[1]".toList ++ post ∧ '[' ∉ pre ∧
      ']' ∉ post ∧ "[1]".toList = '[' :: (m₀ ++ [']']) :=
  c1_regex_match_greedy ("x[1]y".toList) ("[1]".toList) (by decide)

/-- **C1** counterexample: on `"[1] ]"` the text contains the complete
array `"[1]"` followed by a later `']'`, and the extracted substring is
the greedy span `"[1] ]"`, not the first top-level array `"[1]"`. -/
theorem c1_counterexample :
    regexArrayMatch ("[1] ]".toList) = some ("[1] ]".toList) ∧
    firstTopLevelArray ("[1] ]".toList) = some ("[1]".toList) ∧
    regexArrayMatch ("[1] ]".toList) ≠ firstTopLevelArray ("[1] ]".toList) :=
  ⟨by decide, by decide, by decide⟩

/-! ### C2: the validator checks types and lengths but not the range -/

/-- **C2** counterexample: an array whose element has
`correctAnswerIndex = 7` (a number, but no valid index into the four
options) is *accepted* by the validator, though the claimed invariant
rejects it. -/
theorem c2_counterexample :
    isValidFormat [outOfRangeQuestion] = true ∧
    specValidQuestion outOfRangeQuestion = false :=
  ⟨by decide, by decide⟩

/-- **C2** (amended).  The validator accepts a parsed array iff every
element has a truthy `question`, an options *array* of length exactly
4, a `correctAnswerIndex` of JS number type — its numeric range is
never checked — and a truthy `hint`. -/
theorem c2_validator_characterization (qs : List RawQuestion) :
    isValidFormat qs = true ↔
      ∀ q ∈ qs, truthy q.question = true ∧ isArrayVal q.options = true ∧
        arrayLength q.options = 4 ∧ isNumberVal q.correctAnswerIndex = true ∧
        truthy q.hint = true := by
  simp only [isValidFormat, List.all_eq_true, isValidQuestion, Bool.and_eq_true,
    beq_iff_eq, and_assoc]

/-- **C2** instance of the characterization at a concrete array. -/
theorem c2_validator_characterization_witness :
    isValidFormat [wellFormedQuestion] = true ↔
      ∀ q ∈ [wellFormedQuestion], truthy q.question = true ∧ isArrayVal q.options = true ∧
        arrayLength q.options = 4 ∧ isNumberVal q.correctAnswerIndex = true ∧
        truthy q.hint = true :=
  c2_validator_characterization [wellFormedQuestion]

/-! ### C3: every generation failure is caught, surfaced once, non-fatal -/

lemma apiErrorMsg_ne_nil (status : Nat) (statusText : List Char) :
    apiErrorMsg status statusText ≠ [] := by
  intro h
  unfold apiErrorMsg at h
  simp at h

lemma contentStage_error_nonempty (env : GenEnv) (msg : List Char)
    (h : contentStage env = .error msg) : msg ≠ [] := by
  unfold contentStage at h
  repeat' split at h
  all_goals simp only [Except.error.injEq, reduceCtorEq] at h
  all_goals subst h
  · decide
  · decide

lemma fetchStage_error_nonempty (env : GenEnv) (msg : List Char)
    (h : fetchStage env = .error msg) : msg ≠ [] := by
  unfold fetchStage at h
  repeat' split at h
  all_goals simp only [Except.error.injEq, reduceCtorEq] at h
  all_goals subst h
  all_goals first
    | decide
    | exact apiErrorMsg_ne_nil _ _

lemma runGen_fetch_le (env : GenEnv) : (runGen env).2 ≤ 1 := by
  unfold runGen
  split <;> simp

lemma runGen_error_nonempty (env : GenEnv) (msg : List Char)
    (h : (runGen env).1 = .error msg) : msg ≠ [] := by
  unfold runGen at h
  split at h
  · simp only [Except.error.injEq] at h
    subst h
    exact contentStage_error_nonempty env _ (by assumption)
  · simp only at h
    exact fetchStage_error_nonempty env _ h

/-- **C3**.  Whenever any step of the `generateQuiz` pipeline fails
(file-text extraction, empty extracted text, rejected fetch, non-OK
HTTP response, missing generated text, no regex match, `JSON.parse`
error, non-array or empty parse result, invalid question format), the
call surfaces the error message as a notification, the message is
non-empty (human readable), `onQuizGenerated` is never invoked, only
at most the one original request was made (no retry), and
`isGenerating` is reset to `false`. -/
theorem c3_generateQuiz_error_handling (env : GenEnv) (msg : List Char)
    (h : (runGen env).1 = .error msg) :
    (generateQuiz env).errorToast = some msg ∧ msg ≠ [] ∧
    (generateQuiz env).quizGenerated = none ∧
    (generateQuiz env).isGenerating = false ∧
    (generateQuiz env).fetchCalls ≤ 1 := by
  have hne := runGen_error_nonempty env msg h
  have hle := runGen_fetch_le env
  rcases hrg : runGen env with ⟨r, n⟩
  rw [hrg] at h hle
  simp only at h hle
  cases r with
  | ok qs => simp at h
  | error m =>
    simp only [Except.error.injEq] at h
    subst h
    simp [generateQuiz, hrg, hne, hle]

/-- **C3** witness: the concrete run where text extraction fails. -/
theorem c3_generateQuiz_error_handling_witness :
    (generateQuiz ⟨.file, none, false, true, 200, [], none, .err⟩).errorToast
        = some msgExtractFailed ∧
    msgExtractFailed ≠ [] ∧
    (generateQuiz ⟨.file, none, false, true, 200, [], none, .err⟩).quizGenerated = none ∧
    (generateQuiz ⟨.file, none, false, true, 200, [], none, .err⟩).isGenerating = false ∧
    (generateQuiz ⟨.file, none, false, true, 200, [], none, .err⟩).fetchCalls ≤ 1 :=
  c3_generateQuiz_error_handling ⟨.file, none, false, true, 200, [], none, .err⟩
    msgExtractFailed (by rfl)

/-! ### C4: the score percentage, in exact double precision -/

lemma specPercent_eq_round (c t : ℕ) (ht : 0 < t) :
    (specPercent c t : ℤ) = round ((100 * c : ℚ) / t) := by
  rw [round_eq]
  have ht' : (t : ℚ) ≠ 0 := Nat.cast_ne_zero.mpr ht.ne'
  have key : (100 * c : ℚ) / t + 1 / 2 = ((200 * c + t : ℕ) : ℚ) / ((2 * t : ℕ) : ℚ) := by
    push_cast
    field_simp
    ring
  rw [key, Rat.floor_natCast_div_natCast]
  simp [specPercent, Int.natCast_div]

set_option maxHeartbeats 4000000 in
set_option maxRecDepth 10000 in
lemma jsPercent_eq_specPercent_small :
    ∀ t ∈ List.range 40, ∀ c ∈ List.range (t + 1),
      0 < t → jsPercent c t = specPercent c t := by decide

set_option maxRecDepth 4000 in
/-- **C4** counterexample: with M = 40 questions and N = 23 correct
answers, `calculateScore` returns percentage 57, but
`round(100 * 23 / 40) = round(57.5) = 58` — the double-precision
products fall just below the exact half. -/
theorem c4_counterexample :
    calculateScore (List.replicate 40 sampleQuestion) fortyAnswers = (23, 40, 57) ∧
    round ((100 * 23 : ℚ) / 40) = 58 := by
  constructor
  · decide
  · rw [round_eq]
    norm_num

/-- **C4** (amended).  `calculateScore` returns the number of recorded
answers with `isCorrect`, the question count, and the `Math.round` of
the double-precision `(N / M) * 100`; for every quiz with `M ≤ 39`
questions (which covers all selectable question counts of the app)
this percentage equals `round(100 * N / M)` computed exactly — for
larger `M` the two can differ, as the counterexample shows. -/
theorem c4_calculateScore (qs : List Question) (ua : List UserAnswer)
    (h1 : 0 < qs.length) (h2 : qs.length ≤ 39) (h3 : countCorrect ua ≤ qs.length) :
    (calculateScore qs ua).1 = countCorrect ua ∧
    (calculateScore qs ua).2.1 = qs.length ∧
    ((calculateScore qs ua).2.2 : ℤ) = round ((100 * countCorrect ua : ℚ) / qs.length) := by
  refine ⟨rfl, rfl, ?_⟩
  have hm : qs.length ∈ List.range 40 := List.mem_range.mpr (by omega)
  have hn : countCorrect ua ∈ List.range (qs.length + 1) := List.mem_range.mpr (by omega)
  show ((jsPercent (countCorrect ua) qs.length : ℕ) : ℤ) = _
  rw [jsPercent_eq_specPercent_small _ hm _ hn h1]
  exact specPercent_eq_round _ _ h1

set_option maxRecDepth 4000 in
/-- **C4** instance: 7 of 10 correct gives 70 percent. -/
theorem c4_calculateScore_witness :
    (calculateScore (List.replicate 10 sampleQuestion)
        (List.replicate 7 ⟨0, 0, true, false⟩)).1
      = countCorrect (List.replicate 7 ⟨0, 0, true, false⟩) ∧
    (calculateScore (List.replicate 10 sampleQuestion)
        (List.replicate 7 ⟨0, 0, true, false⟩)).2.1
      = (List.replicate 10 sampleQuestion).length ∧
    ((calculateScore (List.replicate 10 sampleQuestion)
        (List.replicate 7 ⟨0, 0, true, false⟩)).2.2 : ℤ)
      = round ((100 * countCorrect (List.replicate 7 ⟨0, 0, true, false⟩) : ℚ)
          / (List.replicate 10 sampleQuestion).length) :=
  c4_calculateScore (List.replicate 10 sampleQuestion)
    (List.replicate 7 ⟨0, 0, true, false⟩) (by decide) (by decide) (by decide)

/-! ### C5: linear navigation, and the stale-timer boundary violation -/

lemma quizStep_questions (s : QuizState) (e : QuizEvent) :
    (quizStep s e).questions = s.questions := by
  cases e <;> simp only [quizStep, advance, recordAnswer] <;> repeat' split
  all_goals rfl

lemma advance_inv (s : QuizState) (h : QuizInv s) : QuizInv (advance s) := by
  obtain ⟨h1, h2⟩ := h
  unfold advance
  split
  · exact ⟨h1, h2⟩
  · next hlast =>
    refine ⟨?_, h2⟩
    simp only [isLastQuestion, beq_iff_eq] at hlast
    simp only
    omega

lemma select_inv (s : QuizState) (i : Nat) (h : QuizInv s) :
    QuizInv (quizStep s (.selectOption i)) := by
  obtain ⟨h1, h2⟩ := h
  simp only [quizStep]
  split
  · exact ⟨h1, h2⟩
  · exact ⟨h1, h2⟩

lemma prev_inv (s : QuizState) (h : QuizInv s) :
    QuizInv (quizStep s .prevQuestion) := by
  obtain ⟨h1, h2⟩ := h
  simp only [quizStep]
  split
  · exact ⟨by simp only; omega, h2⟩
  · exact ⟨h1, h2⟩

lemma hint_inv (s : QuizState) (h : QuizInv s) :
    QuizInv (quizStep s .useHint) := by
  obtain ⟨h1, h2⟩ := h
  simp only [quizStep]
  split
  · exact ⟨h1, h2⟩
  · exact ⟨h1, h2⟩

lemma advance_pending (s : QuizState) :
    (advance s).pendingAdvance = s.pendingAdvance := by
  unfold advance
  split <;> rfl

lemma timerFire_empty (s : QuizState) (h : s.pendingAdvance = []) :
    quizStep s .timerFire = s := by
  simp only [quizStep]
  cases hp : s.pendingAdvance with
  | nil => rfl
  | cons b rest => rw [h] at hp; cases hp

lemma next_fire_inv (s : QuizState) (h : QuizInv s) :
    QuizInv (quizStep (quizStep s .nextQuestion) .timerFire) := by
  obtain ⟨h1, h2⟩ := h
  have hnext : quizStep s .nextQuestion
      = (match s.selectedOption with
         | none => if hasAnswered s then advance s else s
         | some k => if hasAnswered s then advance s else recordAnswer s k) := rfl
  rcases hsel : s.selectedOption with _ | k <;>
    rw [hsel] at hnext <;> cases hans : hasAnswered s <;> rw [hans] at hnext <;>
    dsimp only at hnext
  · -- no selection, not answered: guard returns, timer queue empty
    rw [if_neg (by simp)] at hnext
    rw [hnext, timerFire_empty s h2]
    exact ⟨h1, h2⟩
  · -- no selection, already answered: plain navigation
    rw [if_pos rfl] at hnext
    rw [hnext, timerFire_empty (advance s) (by rw [advance_pending]; exact h2)]
    exact advance_inv s ⟨h1, h2⟩
  · -- selection made, not answered: record, then the timer advances
    rw [if_neg (by simp)] at hnext
    rw [hnext]
    have hpend : (recordAnswer s k).pendingAdvance = [isLastQuestion s] := by
      simp [recordAnswer, h2]
    simp only [quizStep]
    rw [hpend]
    have hidx : (recordAnswer s k).currentQuestionIndex = s.currentQuestionIndex := by
      simp [recordAnswer]
    have hq : (recordAnswer s k).questions = s.questions := by
      simp [recordAnswer]
    cases hlast : isLastQuestion s with
    | true =>
        dsimp only
        refine ⟨?_, rfl⟩
        simp only [hidx, hq]
        exact h1
    | false =>
        dsimp only
        rw [if_neg (by simp)]
        refine ⟨?_, rfl⟩
        have hne : s.currentQuestionIndex ≠ s.questions.length - 1 := by
          simpa [isLastQuestion] using hlast
        simp only [hidx, hq]
        omega
  · -- selection made but already answered: plain navigation
    rw [if_pos rfl] at hnext
    rw [hnext, timerFire_empty (advance s) (by rw [advance_pending]; exact h2)]
    exact advance_inv s ⟨h1, h2⟩

lemma foldl_quizStep_questions (evs : List QuizEvent) (s : QuizState) :
    (evs.foldl quizStep s).questions = s.questions := by
  induction evs generalizing s with
  | nil => rfl
  | cons e evs ih => rw [List.foldl_cons, ih, quizStep_questions]

lemma wfTrace_inv : ∀ (evs : List QuizEvent) (s : QuizState),
    WFTrace evs → QuizInv s → QuizInv (evs.foldl quizStep s) := by
  intro evs s hwf
  induction hwf generalizing s with
  | nil => exact fun h => h
  | sel i _ ih =>
      intro h
      rw [List.foldl_cons]
      exact ih _ (select_inv s i h)
  | prv _ ih =>
      intro h
      rw [List.foldl_cons]
      exact ih _ (prev_inv s h)
  | hnt _ ih =>
      intro h
      rw [List.foldl_cons]
      exact ih _ (hint_inv s h)
  | nxt _ ih =>
      intro h
      rw [List.foldl_cons, List.foldl_cons]
      exact ih _ (next_fire_inv s h)

/-- **C5** (amended).  Quiz navigation is linear: in every run where
each auto-advance fires before the next user action, the question index
stays within `0..M-1`; recording an answer on a non-last question
appends it and, once the two-second timer fires, moves the index up by
exactly one with selection and answer display cleared; on the last
question it marks the quiz complete instead; Previous decrements the
index by exactly one, and only when the index is positive.  (If the
user navigates while an auto-advance is still pending, the stale timer
can instead push the index past `M-1` — see the counterexample.) -/
theorem c5_linear_navigation (qs : List Question) (h : 0 < qs.length) :
    (∀ evs, WFTrace evs → (runQuiz qs evs).currentQuestionIndex < qs.length) ∧
    (∀ s k, hasAnswered s = false → s.selectedOption = some k →
      s.pendingAdvance = [] → isLastQuestion s = false →
      (quizStep s .nextQuestion).userAnswers.length = s.userAnswers.length + 1 ∧
      (quizStep (quizStep s .nextQuestion) .timerFire).currentQuestionIndex
        = s.currentQuestionIndex + 1 ∧
      (quizStep (quizStep s .nextQuestion) .timerFire).selectedOption = none ∧
      (quizStep (quizStep s .nextQuestion) .timerFire).showAnswer = false) ∧
    (∀ s k, hasAnswered s = false → s.selectedOption = some k →
      s.pendingAdvance = [] → isLastQuestion s = true →
      (quizStep (quizStep s .nextQuestion) .timerFire).isQuizComplete = true ∧
      (quizStep (quizStep s .nextQuestion) .timerFire).currentQuestionIndex
        = s.currentQuestionIndex) ∧
    (∀ s, 0 < s.currentQuestionIndex →
      (quizStep s .prevQuestion).currentQuestionIndex = s.currentQuestionIndex - 1) ∧
    (∀ s, s.currentQuestionIndex = 0 → quizStep s .prevQuestion = s) := by
  refine ⟨?_, ?_, ?_, ?_, ?_⟩
  · intro evs hwf
    have hinv := wfTrace_inv evs (initQuiz qs) hwf ⟨by simpa [initQuiz] using h, rfl⟩
    have hq : ((evs.foldl quizStep (initQuiz qs)).questions) = qs :=
      foldl_quizStep_questions evs (initQuiz qs)
    have h5 := hinv.1
    rw [hq] at h5
    exact h5
  · intro s k h1 h2 h3 h4
    simp [quizStep, h2, h1, recordAnswer, h3, h4]
  · intro s k h1 h2 h3 h4
    simp [quizStep, h2, h1, recordAnswer, h3, h4]
  · intro s h1
    simp [quizStep, h1]
  · intro s h1
    simp [quizStep, h1]

/-- **C5** counterexample: on a two-question quiz, answering question 0,
pressing Next again during the two-second window, answering question 1,
and then letting the first (stale) auto-advance timer fire leaves the
current index at 2 — outside `0..M-1 = 0..1`. -/
theorem c5_counterexample :
    (runQuiz [sampleQuestion, sampleQuestion]
        [QuizEvent.selectOption 0, .nextQuestion, .nextQuestion, .selectOption 0,
         .nextQuestion, .timerFire]).currentQuestionIndex = 2 ∧
    ¬((runQuiz [sampleQuestion, sampleQuestion]
        [QuizEvent.selectOption 0, .nextQuestion, .nextQuestion, .selectOption 0,
         .nextQuestion, .timerFire]).currentQuestionIndex
      ≤ [sampleQuestion, sampleQuestion].length - 1) :=
  ⟨by decide, by decide⟩

/-- **C5** witness: on a one-question quiz every well-formed run keeps
the index in bounds. -/
theorem c5_linear_navigation_witness :
    0 < [sampleQuestion].length ∧
    (∀ evs, WFTrace evs →
      (runQuiz [sampleQuestion] evs).currentQuestionIndex < [sampleQuestion].length) :=
  ⟨by decide, (c5_linear_navigation [sampleQuestion] (by decide)).1⟩

/-! ### C6: recorded correctness and hint usage -/

/-- **C6**.  When an answer is recorded (the current question has no
recorded answer yet and an option `k` is selected), `handleNextQuestion`
appends exactly one `UserAnswer` whose `questionIndex` is the current
index, whose `selectedAnswer` is `k`, whose `isCorrect` is `true` iff
`k` equals the question's `correctAnswerIndex`, and whose `usedHint` is
`true` iff a hint was used on this question beforehand. -/
theorem c6_answer_correctness (s : QuizState) (k : Nat)
    (h1 : hasAnswered s = false) (h2 : s.selectedOption = some k) :
    ∃ a : UserAnswer,
      (quizStep s .nextQuestion).userAnswers = s.userAnswers ++ [a] ∧
      a.questionIndex = s.currentQuestionIndex ∧
      a.selectedAnswer = k ∧
      (a.isCorrect = true ↔ (k : Int) = (currentQuestion s).correctAnswerIndex) ∧
      (a.usedHint = true ↔ s.currentQuestionIndex ∈ s.usedHints) := by
  refine ⟨{ questionIndex := s.currentQuestionIndex, selectedAnswer := k,
            isCorrect := (k : Int) == (currentQuestion s).correctAnswerIndex,
            usedHint := s.usedHints.contains s.currentQuestionIndex },
          ?_, rfl, rfl, ?_, ?_⟩
  · simp [quizStep, h2, h1, recordAnswer]
  · simp only [beq_iff_eq]
  · simp [List.contains, List.elem_iff]

/-- **C6** witness: selecting the correct option on a fresh quiz. -/
theorem c6_answer_correctness_witness :
    hasAnswered { initQuiz [sampleQuestion] with selectedOption := some 0 } = false ∧
    (∃ a : UserAnswer,
      (quizStep { initQuiz [sampleQuestion] with selectedOption := some 0 }
          .nextQuestion).userAnswers
        = { initQuiz [sampleQuestion] with selectedOption := some 0 }.userAnswers ++ [a] ∧
      a.questionIndex
        = { initQuiz [sampleQuestion] with selectedOption := some 0 }.currentQuestionIndex ∧
      a.selectedAnswer = 0 ∧
      (a.isCorrect = true ↔ ((0 : Nat) : Int)
        = (currentQuestion { initQuiz [sampleQuestion] with
            selectedOption := some 0 }).correctAnswerIndex) ∧
      (a.usedHint = true ↔
        { initQuiz [sampleQuestion] with selectedOption := some 0 }.currentQuestionIndex
          ∈ { initQuiz [sampleQuestion] with selectedOption := some 0 }.usedHints)) :=
  ⟨by decide, c6_answer_correctness _ 0 (by decide) rfl⟩

/-! ### C7: the three-step voice dialogue -/

/-- **C7**.  `processVoiceResponse` advances the conversation only in
the order topic → questions → difficulty: a topic transcript of at
least 3 characters (after trimming) is stored and moves to the
questions step; a shorter one leaves the state entirely unchanged; the
questions step always moves to the difficulty step; the difficulty step
closes the modal and marks voice input complete without moving the
step; and in every case the step index stays the same or advances by
exactly one — no step is skipped or revisited. -/
theorem c7_conversation_steps (s : VoiceState) (t : List Char) :
    (s.conversationStep = .topic → 3 ≤ (jsTrim t).length →
      (processVoiceResponse s t).conversationStep = .questions ∧
      (processVoiceResponse s t).topicResp = jsTrim t) ∧
    (s.conversationStep = .topic → (jsTrim t).length < 3 →
      processVoiceResponse s t = s) ∧
    (s.conversationStep = .questions →
      (processVoiceResponse s t).conversationStep = .difficulty) ∧
    (s.conversationStep = .difficulty →
      (processVoiceResponse s t).conversationStep = .difficulty ∧
      (processVoiceResponse s t).showVoiceModal = false ∧
      (processVoiceResponse s t).isVoiceInputComplete = true) ∧
    ((processVoiceResponse s t).conversationStep.idx = s.conversationStep.idx ∨
      (processVoiceResponse s t).conversationStep.idx = s.conversationStep.idx + 1) := by
  rcases hs : s.conversationStep with _ | _ | _
  · -- topic step
    by_cases hlen : (jsTrim t).length < 3
    · have hred : processVoiceResponse s t = s := by
        simp [processVoiceResponse, hs, if_pos hlen]
      refine ⟨?_, ?_, ?_, ?_, ?_⟩
      · intro _ h3
        omega
      · intro _ _
        exact hred
      · intro h
        cases h
      · intro h
        cases h
      · left
        rw [hred, hs]
    · have hred : processVoiceResponse s t
          = { s with topicResp := jsTrim t, conversationStep := .questions } := by
        simp [processVoiceResponse, hs, if_neg hlen]
      refine ⟨?_, ?_, ?_, ?_, ?_⟩
      · intro _ _
        rw [hred]
        exact ⟨rfl, rfl⟩
      · intro _ h3
        omega
      · intro h
        cases h
      · intro h
        cases h
      · right
        rw [hred]
        rfl
  · -- questions step
    have hred : (processVoiceResponse s t).conversationStep = .difficulty := by
      simp [processVoiceResponse, hs]
    refine ⟨?_, ?_, ?_, ?_, ?_⟩
    · intro h
      cases h
    · intro h
      cases h
    · intro _
      exact hred
    · intro h
      cases h
    · right
      rw [hred]
      rfl
  · -- difficulty step
    have hred : processVoiceResponse s t
        = { s with difficultyResp := mapDifficulty (jsTrim (toLowerStr t)),
                   showVoiceModal := false, isVoiceInputComplete := true } := by
      simp [processVoiceResponse, hs]
    refine ⟨?_, ?_, ?_, ?_, ?_⟩
    · intro h
      cases h
    · intro h
      cases h
    · intro h
      cases h
    · intro _
      rw [hred]
      exact ⟨hs, rfl, rfl⟩
    · left
      rw [hred]
      simp [hs]

/-- **C7** witness: processing a topic transcript at the topic step. -/
theorem c7_conversation_steps_witness :
    (VoiceState.mk .topic [] [] [] true false).conversationStep = .topic ∧
    3 ≤ (jsTrim ("history".toList)).length ∧
    (processVoiceResponse (VoiceState.mk .topic [] [] [] true false)
        ("history".toList)).conversationStep = .questions ∧
    (processVoiceResponse (VoiceState.mk .topic [] [] [] true false)
        ("history".toList)).topicResp = jsTrim ("history".toList) := by
  refine ⟨rfl, by decide, ?_⟩
  have h := (c7_conversation_steps (VoiceState.mk .topic [] [] [] true false)
    ("history".toList)).1 rfl (by decide)
  exact ⟨h.1, h.2⟩

/-! ### C8: at most one answer per question, append-only -/

lemma advance_answers (s : QuizState) : (advance s).userAnswers = s.userAnswers := by
  unfold advance
  split <;> rfl

lemma quizStep_answers (s : QuizState) (e : QuizEvent) :
    (quizStep s e).userAnswers = s.userAnswers ∨
    (hasAnswered s = false ∧ ∃ k a, s.selectedOption = some k ∧
      (quizStep s e).userAnswers = s.userAnswers ++ [a] ∧
      a.questionIndex = s.currentQuestionIndex) := by
  cases e with
  | selectOption i =>
      left
      simp only [quizStep]
      split <;> rfl
  | prevQuestion =>
      left
      simp only [quizStep]
      split <;> rfl
  | useHint =>
      left
      simp only [quizStep]
      split <;> rfl
  | timerFire =>
      left
      simp only [quizStep]
      cases hp : s.pendingAdvance with
      | nil => rfl
      | cons b rest => cases b <;> simp
  | nextQuestion =>
      rcases hsel : s.selectedOption with _ | k <;> simp only [quizStep, hsel]
      · left
        split <;> simp [advance_answers]
      · cases hans : hasAnswered s with
        | true => left; simp [advance_answers]
        | false =>
            right
            refine ⟨rfl, k,
              { questionIndex := s.currentQuestionIndex, selectedAnswer := k,
                isCorrect := (k : Int) == (currentQuestion s).correctAnswerIndex,
                usedHint := s.usedHints.contains s.currentQuestionIndex },
              rfl, ?_, rfl⟩
            simp [recordAnswer]

lemma answersIdx_nodup_step (s : QuizState) (e : QuizEvent)
    (h : (s.userAnswers.map UserAnswer.questionIndex).Nodup) :
    ((quizStep s e).userAnswers.map UserAnswer.questionIndex).Nodup := by
  rcases quizStep_answers s e with heq | ⟨hans, k, a, hsel, heq, hidx⟩
  · rw [heq]; exact h
  · rw [heq, List.map_append]
    have hnotmem : s.currentQuestionIndex ∉ s.userAnswers.map UserAnswer.questionIndex := by
      simp only [hasAnswered, List.any_eq_false, beq_iff_eq] at hans
      simp only [List.mem_map, not_exists, not_and]
      intro x hx hcontra
      exact hans x hx hcontra
    simp [List.nodup_append, h, hidx, hnotmem]

lemma runQuiz_answers_nodup (qs : List Question) (evs : List QuizEvent) :
    ((runQuiz qs evs).userAnswers.map UserAnswer.questionIndex).Nodup := by
  suffices hgen : ∀ (evs : List QuizEvent) (s : QuizState),
      (s.userAnswers.map UserAnswer.questionIndex).Nodup →
      ((evs.foldl quizStep s).userAnswers.map UserAnswer.questionIndex).Nodup by
    exact hgen evs (initQuiz qs) (by simp [initQuiz])
  intro evs
  induction evs with
  | nil => exact fun s h => h
  | cons e evs ih =>
      intro s h
      rw [List.foldl_cons]
      exact ih _ (answersIdx_nodup_step s e h)

/-- **C8**.  User answers are append-only with at most one entry per
question index: after any event sequence the recorded answers have
pairwise-distinct question indices, and one further event either leaves
the answer list unchanged or appends a single entry whose index was not
yet present (an answer is recorded only when no entry for the current
index exists; no operation ever modifies or removes an entry). -/
theorem c8_answers_append_only (qs : List Question) (evs : List QuizEvent) :
    ((runQuiz qs evs).userAnswers.map UserAnswer.questionIndex).Nodup ∧
    ∀ e, (quizStep (runQuiz qs evs) e).userAnswers = (runQuiz qs evs).userAnswers ∨
      ∃ a, (quizStep (runQuiz qs evs) e).userAnswers = (runQuiz qs evs).userAnswers ++ [a] ∧
        a.questionIndex ∉ ((runQuiz qs evs).userAnswers.map UserAnswer.questionIndex) := by
  refine ⟨runQuiz_answers_nodup qs evs, ?_⟩
  intro e
  rcases quizStep_answers (runQuiz qs evs) e with heq | ⟨hans, k, a, hsel, heq, hidx⟩
  · exact Or.inl heq
  · refine Or.inr ⟨a, heq, ?_⟩
    rw [hidx]
    simp only [hasAnswered, List.any_eq_false, beq_iff_eq] at hans
    simp only [List.mem_map, not_exists, not_and]
    intro x hx hcontra
    exact hans x hx hcontra

/-! ### C9: hint credits -/

lemma advance_credits (s : QuizState) :
    (advance s).credits = s.credits ∧ (advance s).usedHints = s.usedHints := by
  unfold advance
  split <;> exact ⟨rfl, rfl⟩

lemma quizStep_hints (s : QuizState) (e : QuizEvent) :
    ((quizStep s e).credits = s.credits ∧ (quizStep s e).usedHints = s.usedHints) ∨
    (canUseHint s = true ∧ (quizStep s e).credits = s.credits - 2 ∧
      (quizStep s e).usedHints = s.usedHints ++ [s.currentQuestionIndex]) := by
  cases e with
  | selectOption i =>
      left
      simp only [quizStep]
      split <;> exact ⟨rfl, rfl⟩
  | prevQuestion =>
      left
      simp only [quizStep]
      split <;> exact ⟨rfl, rfl⟩
  | timerFire =>
      left
      simp only [quizStep]
      cases hp : s.pendingAdvance with
      | nil => exact ⟨rfl, rfl⟩
      | cons b rest => cases b <;> exact ⟨rfl, rfl⟩
  | nextQuestion =>
      left
      rcases hsel : s.selectedOption with _ | k <;> simp only [quizStep, hsel] <;>
        cases hans : hasAnswered s
      · exact ⟨rfl, rfl⟩
      · simpa using advance_credits s
      · simp [recordAnswer]
      · simpa using advance_credits s
  | useHint =>
      simp only [quizStep]
      split
      · next hcan => exact Or.inr ⟨hcan, rfl, rfl⟩
      · exact Or.inl ⟨rfl, rfl⟩

lemma hint_inv_step (s : QuizState) (e : QuizEvent)
    (h : s.usedHints.Nodup ∧ s.credits = 10 - 2 * s.usedHints.length ∧
      s.usedHints.length ≤ 5) :
    (quizStep s e).usedHints.Nodup ∧
    (quizStep s e).credits = 10 - 2 * (quizStep s e).usedHints.length ∧
    (quizStep s e).usedHints.length ≤ 5 := by
  obtain ⟨hnd, hcr, hlen⟩ := h
  rcases quizStep_hints s e with ⟨hc, hu⟩ | ⟨hcan, hc, hu⟩
  · rw [hc, hu]
    exact ⟨hnd, hcr, hlen⟩
  · have hge : 2 ≤ s.credits := by
      simp only [canUseHint, Bool.and_eq_true, decide_eq_true_eq] at hcan
      exact hcan.1
    have hmem : s.currentQuestionIndex ∉ s.usedHints := by
      simp only [canUseHint, Bool.and_eq_true, Bool.not_eq_true'] at hcan
      have := hcan.2
      simp only [List.contains, List.elem_eq_mem, decide_eq_false_iff_not] at this
      exact this
    rw [hc, hu]
    refine ⟨?_, ?_, ?_⟩
    · simp [List.nodup_append, hnd, hmem]
    · simp only [List.length_append, List.length_cons, List.length_nil]
      omega
    · simp only [List.length_append, List.length_cons, List.length_nil]
      omega

/-- **C9**.  In every run: hint credits equal 10 minus twice the number
of distinct questions on which a hint was used, never exceed 10, are
always even (hence never negative with `Nat` semantics), and at most 5
hints are ever used; a hint is usable exactly when credits are at least
2 and no hint was used on the current question; a successful use costs
exactly 2 credits and records the question index, and an unsuccessful
press changes nothing. -/
theorem c9_hint_credits (qs : List Question) (evs : List QuizEvent) :
    (runQuiz qs evs).usedHints.Nodup ∧
    (runQuiz qs evs).credits = 10 - 2 * (runQuiz qs evs).usedHints.length ∧
    (runQuiz qs evs).usedHints.length ≤ 5 ∧
    (runQuiz qs evs).credits % 2 = 0 ∧
    (runQuiz qs evs).credits ≤ 10 ∧
    (∀ s : QuizState, canUseHint s = true ↔
      (2 ≤ s.credits ∧ s.currentQuestionIndex ∉ s.usedHints)) ∧
    (∀ s : QuizState, canUseHint s = true →
      (quizStep s .useHint).credits = s.credits - 2 ∧
      (quizStep s .useHint).usedHints = s.usedHints ++ [s.currentQuestionIndex]) ∧
    (∀ s : QuizState, canUseHint s = false → quizStep s .useHint = s) := by
  have hinv : (runQuiz qs evs).usedHints.Nodup ∧
      (runQuiz qs evs).credits = 10 - 2 * (runQuiz qs evs).usedHints.length ∧
      (runQuiz qs evs).usedHints.length ≤ 5 := by
    suffices hgen : ∀ (evs : List QuizEvent) (s : QuizState),
        (s.usedHints.Nodup ∧ s.credits = 10 - 2 * s.usedHints.length ∧
          s.usedHints.length ≤ 5) →
        ((evs.foldl quizStep s).usedHints.Nodup ∧
          (evs.foldl quizStep s).credits
            = 10 - 2 * (evs.foldl quizStep s).usedHints.length ∧
          (evs.foldl quizStep s).usedHints.length ≤ 5) by
      exact hgen evs (initQuiz qs) ⟨List.nodup_nil, rfl, by simp [initQuiz]⟩
    intro evs
    induction evs with
    | nil => exact fun s h => h
    | cons e evs ih =>
        intro s h
        rw [List.foldl_cons]
        exact ih _ (hint_inv_step s e h)
  obtain ⟨hnd, hcr, hlen⟩ := hinv
  refine ⟨hnd, hcr, hlen, by omega, by omega, ?_, ?_, ?_⟩
  · intro s
    simp [canUseHint, List.contains, List.elem_eq_mem]
  · intro s hcan
    simp [quizStep, hcan]
  · intro s hcan
    simp [quizStep, hcan]

/-- **C9** instance: after using one hint on a fresh quiz. -/
theorem c9_hint_credits_witness :
    (runQuiz [sampleQuestion] [QuizEvent.useHint]).usedHints.Nodup ∧
    (runQuiz [sampleQuestion] [QuizEvent.useHint]).credits
      = 10 - 2 * (runQuiz [sampleQuestion] [QuizEvent.useHint]).usedHints.length ∧
    (runQuiz [sampleQuestion] [QuizEvent.useHint]).usedHints.length ≤ 5 ∧
    (runQuiz [sampleQuestion] [QuizEvent.useHint]).credits % 2 = 0 ∧
    (runQuiz [sampleQuestion] [QuizEvent.useHint]).credits ≤ 10 ∧
    (∀ s : QuizState, canUseHint s = true ↔
      (2 ≤ s.credits ∧ s.currentQuestionIndex ∉ s.usedHints)) ∧
    (∀ s : QuizState, canUseHint s = true →
      (quizStep s .useHint).credits = s.credits - 2 ∧
      (quizStep s .useHint).usedHints = s.usedHints ++ [s.currentQuestionIndex]) ∧
    (∀ s : QuizState, canUseHint s = false → quizStep s .useHint = s) :=
  c9_hint_credits [sampleQuestion] [QuizEvent.useHint]

/-! ### C10: the difficulty keyword mapping is total with easy-precedence -/

lemma mapDifficulty_spec (l : List Char) :
    (mapDifficulty l = "easy".toList ∨ mapDifficulty l = "medium".toList ∨
      mapDifficulty l = "hard".toList) ∧
    (mapDifficulty l = "easy".toList ↔
      (containsSub l ("easy".toList) = true ∨ containsSub l ("simple".toList) = true)) ∧
    (mapDifficulty l = "hard".toList ↔
      ((containsSub l ("easy".toList) = false ∧ containsSub l ("simple".toList) = false) ∧
        (containsSub l ("hard".toList) = true ∨ containsSub l ("difficult".toList) = true ∨
          containsSub l ("advanced".toList) = true))) ∧
    (mapDifficulty l = "medium".toList ↔
      ((containsSub l ("easy".toList) = false ∧ containsSub l ("simple".toList) = false) ∧
        containsSub l ("hard".toList) = false ∧ containsSub l ("difficult".toList) = false ∧
        containsSub l ("advanced".toList) = false)) := by
  simp only [mapDifficulty]
  cases h1 : containsSub l ("easy".toList) <;>
    cases h2 : containsSub l ("simple".toList) <;>
    cases h3 : containsSub l ("hard".toList) <;>
    cases h4 : containsSub l ("difficult".toList) <;>
    cases h5 : containsSub l ("advanced".toList) <;>
    decide

/-- **C10**.  On the difficulty step, the recorded difficulty is a total
function of the (lowercased, trimmed) transcript into exactly one of
"easy", "medium", "hard": "easy" when it contains "easy" or "simple"
(taking precedence over the hard keywords), otherwise "hard" when it
contains "hard", "difficult" or "advanced", otherwise "medium". -/
theorem c10_difficulty_mapping (s : VoiceState) (t : List Char)
    (h : s.conversationStep = .difficulty) :
    (processVoiceResponse s t).difficultyResp = mapDifficulty (jsTrim (toLowerStr t)) ∧
    (mapDifficulty (jsTrim (toLowerStr t)) = "easy".toList ∨
      mapDifficulty (jsTrim (toLowerStr t)) = "medium".toList ∨
      mapDifficulty (jsTrim (toLowerStr t)) = "hard".toList) ∧
    (mapDifficulty (jsTrim (toLowerStr t)) = "easy".toList ↔
      (containsSub (jsTrim (toLowerStr t)) ("easy".toList) = true ∨
        containsSub (jsTrim (toLowerStr t)) ("simple".toList) = true)) ∧
    (mapDifficulty (jsTrim (toLowerStr t)) = "hard".toList ↔
      ((containsSub (jsTrim (toLowerStr t)) ("easy".toList) = false ∧
          containsSub (jsTrim (toLowerStr t)) ("simple".toList) = false) ∧
        (containsSub (jsTrim (toLowerStr t)) ("hard".toList) = true ∨
          containsSub (jsTrim (toLowerStr t)) ("difficult".toList) = true ∨
          containsSub (jsTrim (toLowerStr t)) ("advanced".toList) = true))) ∧
    (mapDifficulty (jsTrim (toLowerStr t)) = "medium".toList ↔
      ((containsSub (jsTrim (toLowerStr t)) ("easy".toList) = false ∧
          containsSub (jsTrim (toLowerStr t)) ("simple".toList) = false) ∧
        containsSub (jsTrim (toLowerStr t)) ("hard".toList) = false ∧
        containsSub (jsTrim (toLowerStr t)) ("difficult".toList) = false ∧
        containsSub (jsTrim (toLowerStr t)) ("advanced".toList) = false)) := by
  have hspec := mapDifficulty_spec (jsTrim (toLowerStr t))
  refine ⟨?_, hspec.1, hspec.2.1, hspec.2.2.1, hspec.2.2.2⟩
  simp [processVoiceResponse, h]

/-- **C10** witness: "make it simple but hard" maps to "easy". -/
theorem c10_difficulty_mapping_witness :
    (VoiceState.mk .difficulty [] [] [] true false).conversationStep = .difficulty ∧
    (processVoiceResponse (VoiceState.mk .difficulty [] [] [] true false)
        ("make it Simple but hard".toList)).difficultyResp
      = mapDifficulty (jsTrim (toLowerStr ("make it Simple but hard".toList))) ∧
    mapDifficulty (jsTrim (toLowerStr ("make it Simple but hard".toList)))
      = "easy".toList :=
  ⟨rfl,
   (c10_difficulty_mapping (VoiceState.mk .difficulty [] [] [] true false)
      ("make it Simple but hard".toList) rfl).1,
   by decide⟩

end Quiz
